import Mathlib

/- Verification of the TravelAgent trip-planning core: the weather-gate
   predicate, the budget auto-split, the JSON-in-free-text extraction and
   normalization pipeline, the weather attachment step and the wizard
   stage guard.  Definitions are shallow embeddings of the Python source
   in src/agents.py and src/main.py. -/

set_option maxHeartbeats 1000000

/- §1  Binary64 model for the budget auto-split.

   The Python code computes `int(0.25 * total)` and friends in IEEE-754
   binary64 arithmetic.  Each constant 0.05 / 0.15 / 0.25 / 0.35 / 0.45 is
   first rounded to the nearest double, a dyadic rational m / 2^s; the
   product with an exact integer `total` (exact for total ≤ 2^53) is then
   rounded to nearest-even at 53 significant bits, and `int` truncates.
   Scaling by powers of two is exact, so rounding the product m·t / 2^s
   amounts to rounding the integer m·t to 53 significant bits. -/

/-- Fuelled base-2 logarithm (structural recursion, so that the kernel can
evaluate it on large literals). -/
def log2fuel : ℕ → ℕ → ℕ
  | 0, _ => 0
  | f + 1, n => if n < 2 then 0 else log2fuel f (n / 2) + 1

/-- Base-2 logarithm, correct for every `n < 2 ^ 128` (all numbers arising
from the budget split with `total ≤ 2 ^ 53`). -/
def nlog2 (n : ℕ) : ℕ := log2fuel 128 n

/-- Round `n` to a multiple of `2 ^ d`, nearest, ties to the even multiple. -/
def roundAt (n d : ℕ) : ℕ :=
  if n % 2 ^ d < 2 ^ (d - 1) then n / 2 ^ d * 2 ^ d
  else if 2 ^ (d - 1) < n % 2 ^ d then (n / 2 ^ d + 1) * 2 ^ d
  else if n / 2 ^ d % 2 = 0 then n / 2 ^ d * 2 ^ d
  else (n / 2 ^ d + 1) * 2 ^ d

/-- Round a natural number to 53 significant bits, ties to even: the value of
the binary64 nearest to `n` (for `n < 2 ^ 128`, far below overflow). -/
def rneVal (n : ℕ) : ℕ :=
  if n < 2 ^ 53 then n else roundAt n (nlog2 n - 52)

/-- Absolute rounding-error bound of `rneVal`: half an ulp. -/
def errT (n : ℕ) : ℕ := if n < 2 ^ 53 then 0 else 2 ^ (nlog2 n - 53)

/-- Mantissa of the binary64 nearest 0.35, whose exact value is c35m / 2^54. -/
def c35m : ℕ := 6305039478318694

/-- Mantissa of the binary64 nearest 0.45, whose exact value is c45m / 2^54. -/
def c45m : ℕ := 8106479329266893

/-- Mantissa of the binary64 nearest 0.15, whose exact value is c15m / 2^55. -/
def c15m : ℕ := 5404319552844595

/-- Mantissa of the binary64 nearest 0.05, whose exact value is c05m / 2^57. -/
def c05m : ℕ := 7205759403792794

/-- Model of `int(c * t)` for a nonnegative integer `t`: the binary64 product of the
double c = mc / 2^sc with t, truncated to an integer.  Exact scaling by 2^sc
turns this into rounding mc·t to 53 bits and floor-dividing by 2^sc. -/
def pyMulTruncNat (mc sc t : ℕ) : ℕ := rneVal (mc * t) / 2 ^ sc

/-- Model of `int(c * t)` for an arbitrary integer `t` (float rounding and `int`
truncation are both symmetric around zero). -/
def pyMulTruncInt (mc sc : ℕ) (t : ℤ) : ℤ :=
  if 0 ≤ t then (pyMulTruncNat mc sc t.toNat : ℤ)
  else -(pyMulTruncNat mc sc (-t).toNat : ℤ)

/-- The four optional category ranges of the `budget_range` mapping. -/
structure BudgetRanges where
  transport : Option (ℤ × ℤ)
  accommodation : Option (ℤ × ℤ)
  food : Option (ℤ × ℤ)
  entertainment : Option (ℤ × ℤ)

/-- The preference fields read by `Tripcrew.__init__` and
`Tripcrew.should_show_weather` (src/agents.py). -/
structure Prefs where
  total_budget : Option ℤ
  budget_range : Option BudgetRanges
  start_date : Option String
  planning_style : Option String

/-- Model of `all(v is None for v in budget_range.values())`. -/
def allNoneBR (r : BudgetRanges) : Bool :=
  r.transport.isNone && r.accommodation.isNone && r.food.isNone &&
    r.entertainment.isNone

/-- Model of `not inputs.get("budget_range") or all(v is None for v in ...)`:
a missing mapping is falsy; a present mapping (4 keys, hence truthy) passes
only when all four values are null. -/
def brFalsyOrAllNone (o : Option BudgetRanges) : Bool :=
  match o with
  | none => true
  | some r => allNoneBR r

/-- Python truthiness of `inputs.get("total_budget")`: present and nonzero. -/
def totalTruthy (o : Option ℤ) : Bool :=
  match o with
  | none => false
  | some t => t != 0

/-- The auto-split of src/agents.py lines 629-634:
transport (0.25, 0.35), accommodation (0.35, 0.45), food (0.15, 0.25),
entertainment (0.05, 0.15), each value `int(c * total)` in binary64. -/
def autoSplit (t : ℤ) : BudgetRanges where
  transport := some (pyMulTruncInt 1 2 t, pyMulTruncInt c35m 54 t)
  accommodation := some (pyMulTruncInt c35m 54 t, pyMulTruncInt c45m 54 t)
  food := some (pyMulTruncInt c15m 55 t, pyMulTruncInt 1 2 t)
  entertainment := some (pyMulTruncInt c05m 57 t, pyMulTruncInt c15m 55 t)

/-- Model of `Tripcrew.__init__` (src/agents.py lines 625-635): auto-split the total
budget into category ranges when none are usable and the total is truthy. -/
def tripcrewInit (p : Prefs) : Prefs :=
  if brFalsyOrAllNone p.budget_range && totalTruthy p.total_budget then
    { p with budget_range := some (autoSplit (p.total_budget.getD 0)) }
  else p

/- §2  Calendar dates and the weather gate. -/

/-- Numeric value of a run of decimal digit characters. -/
def digitsNat (ds : List Char) : ℕ :=
  ds.foldl (fun a c => a * 10 + (c.toNat - 48)) 0

/-- All characters are ASCII decimal digits. -/
def allDigits (ds : List Char) : Bool := ds.all (fun c => c.isDigit)

/-- Split a character list on the minus-sign separator. -/
def splitDashGo : List Char → List Char → List (List Char)
  | [], acc => [acc.reverse]
  | c :: rest, acc =>
    if c = '-' then acc.reverse :: splitDashGo rest []
    else splitDashGo rest (c :: acc)

/-- Split on the date separator, as `"a-b-c" ↦ [a, b, c]`. -/
def splitDash (cs : List Char) : List (List Char) := splitDashGo cs []

/-- Gregorian leap year, as `calendar.isleap` / `datetime.date` use. -/
def isLeap (y : ℕ) : Bool :=
  (y % 4 = 0 && y % 100 ≠ 0) || y % 400 = 0

/-- Length of a month in the proleptic Gregorian calendar. -/
def daysInMonth (y m : ℕ) : ℕ :=
  if m = 2 then (if isLeap y then 29 else 28)
  else if m = 4 ∨ m = 6 ∨ m = 9 ∨ m = 11 then 30
  else 31

/-- Model of `datetime.strptime(s, "%Y-%m-%d").date()`: a 4-digit year, a 1-2 digit
month in 1..12, a 1-2 digit day valid for that month, the whole string
consumed; year at least 1 (`datetime.MINYEAR`); `None` models ValueError. -/
def parseDateYMD (s : String) : Option (ℕ × ℕ × ℕ) :=
  match splitDash s.data with
  | [ys, ms, ds] =>
    if ys.length = 4 ∧ 1 ≤ ms.length ∧ ms.length ≤ 2 ∧ 1 ≤ ds.length ∧
        ds.length ≤ 2 ∧ allDigits ys = true ∧ allDigits ms = true ∧
        allDigits ds = true then
      let y := digitsNat ys
      let m := digitsNat ms
      let d := digitsNat ds
      if 1 ≤ y ∧ 1 ≤ m ∧ m ≤ 12 ∧ 1 ≤ d ∧ d ≤ daysInMonth y m then
        some (y, m, d)
      else none
    else none
  | _ => none

/-- Day number of a proleptic Gregorian date (days since 1970-01-01, the
standard civil-from-days construction), so that differences of `toRD` equal
differences of Python `date.toordinal`. -/
def toRD (y m d : ℕ) : ℤ :=
  let yp := y - (if m ≤ 2 then 1 else 0)
  let era := yp / 400
  let yoe := yp % 400
  let mp := if 2 < m then m - 3 else m + 9
  let doy := (153 * mp + 2) / 5 + d - 1
  let doe := yoe * 365 + yoe / 4 + doy - yoe / 100
  (era * 146097 + doe : ℤ) - 719468

/-- Python falsiness of an optional string: absent or empty. -/
def pyFalsyStr (o : Option String) : Bool :=
  match o with
  | none => true
  | some s => s.isEmpty

/-- Model of `Tripcrew.should_show_weather` (src/agents.py lines 661-675), with the
current UTC date passed explicitly: false on falsy start date or planning
style, false when the start date does not parse as %Y-%m-%d, and otherwise
true exactly for `planning_style == "holiday_based"` with the trip starting
0 to 3 days from today. -/
def should_show_weather (today : ℕ × ℕ × ℕ) (p : Prefs) : Bool :=
  if pyFalsyStr p.start_date || pyFalsyStr p.planning_style then false
  else
    match parseDateYMD (p.start_date.getD ("")) with
    | none => false
    | some (y, m, d) =>
      let diff : ℤ := toRD y m d - toRD today.1 today.2.1 today.2.2
      (p.planning_style == some ("holiday_based")) && decide (0 ≤ diff) &&
        decide (diff ≤ 3)

/- §3  JSON values and a model of `json.loads`.

   `JValue` models the Python values flowing through the pipeline (the
   results of `json.loads` plus the raw strings).  `jsonParse` models
   `json.loads` on strings: strict JSON with leading/trailing whitespace,
   objects, arrays, strings with escapes, numbers, and literals (the
   nonstandard NaN/Infinity extensions are not modelled), `none` standing
   for `json.JSONDecodeError`. -/

/-- Python values produced by the pipeline. -/
inductive JValue where
  | null : JValue
  | bool : Bool → JValue
  | num : ℚ → JValue
  | str : String → JValue
  | arr : List JValue → JValue
  | obj : List (String × JValue) → JValue

/-- Python truthiness of a `JValue`. -/
def jTruthy : JValue → Bool
  | JValue.null => false
  | JValue.bool b => b
  | JValue.num q => decide (q ≠ 0)
  | JValue.str s => !s.isEmpty
  | JValue.arr l => !l.isEmpty
  | JValue.obj l => !l.isEmpty

/-- Whether a value is a mapping (has the `.get` method used on elements). -/
def isObjB : JValue → Bool
  | JValue.obj _ => true
  | _ => false

/-- The keys of a mapping, in order. -/
def jKeys : JValue → List String
  | JValue.obj kvs => kvs.map (fun p => p.1)
  | _ => []

/-- Model of `dict.get(k, d)`: the stored value (last binding) or the default. -/
def jGetD (kvs : List (String × JValue)) (k : String) (d : JValue) : JValue :=
  match kvs.reverse.find? (fun p => p.1 == k) with
  | some p => p.2
  | none => d

/-- Model of `dict.get(k)`: the stored value or absent. -/
def jGetOpt (kvs : List (String × JValue)) (k : String) : Option JValue :=
  (kvs.reverse.find? (fun p => p.1 == k)).map (fun p => p.2)

/-- Model of `dict[k] = v`: update the binding in place, or append a new one. -/
def jSet (kvs : List (String × JValue)) (k : String) (v : JValue) :
    List (String × JValue) :=
  if kvs.any (fun p => p.1 == k) then
    kvs.map (fun p => if p.1 == k then (p.1, v) else p)
  else kvs ++ [(k, v)]

/-- JSON whitespace accepted by `json.loads` between tokens. -/
def isJsonWs (c : Char) : Bool :=
  c = ' ' || c = '\t' || c = '\n' || c = '\r'

/-- Skip JSON whitespace. -/
def skipWs (cs : List Char) : List Char := cs.dropWhile isJsonWs

/-- Hexadecimal digit value. -/
def hexVal (c : Char) : Option ℕ :=
  if c.isDigit then some (c.toNat - 48)
  else if 'a' ≤ c ∧ c ≤ 'f' then some (c.toNat - 87)
  else if 'A' ≤ c ∧ c ≤ 'F' then some (c.toNat - 55)
  else none

/-- Body of a JSON string literal after the opening quote: plain characters
above U+001F, the standard escapes, and `\uXXXX` code units. -/
def parseStrGo : ℕ → List Char → List Char → Option (String × List Char)
  | 0, _, _ => none
  | _ + 1, [], _ => none
  | f + 1, c :: rest, acc =>
    if c = '"' then some (String.mk acc.reverse, rest)
    else if c = '\\' then
      match rest with
      | [] => none
      | e :: rest2 =>
        if e = '"' then parseStrGo f rest2 ('"' :: acc)
        else if e = '\\' then parseStrGo f rest2 ('\\' :: acc)
        else if e = '/' then parseStrGo f rest2 ('/' :: acc)
        else if e = 'b' then parseStrGo f rest2 ('\x08' :: acc)
        else if e = 'f' then parseStrGo f rest2 ('\x0c' :: acc)
        else if e = 'n' then parseStrGo f rest2 ('\n' :: acc)
        else if e = 'r' then parseStrGo f rest2 ('\r' :: acc)
        else if e = 't' then parseStrGo f rest2 ('\t' :: acc)
        else if e = 'u' then
          match rest2 with
          | h1 :: h2 :: h3 :: h4 :: rest3 =>
            match hexVal h1, hexVal h2, hexVal h3, hexVal h4 with
            | some a, some b, some g, some d =>
              parseStrGo f rest3 (Char.ofNat (((a * 16 + b) * 16 + g) * 16 + d) :: acc)
            | _, _, _, _ => none
          | _ => none
        else none
    else if c.toNat < 32 then none
    else parseStrGo f rest (c :: acc)

/-- Split a leading run of decimal digits from the rest. -/
def takeDigits (cs : List Char) : List Char × List Char :=
  (cs.takeWhile (fun c => c.isDigit), cs.dropWhile (fun c => c.isDigit))

/-- Optional fraction part `.ddd` of a JSON number. -/
def parseFrac (cs : List Char) : Option (ℚ × List Char) :=
  match cs with
  | '.' :: rest =>
    match takeDigits rest with
    | ([], _) => none
    | (ds, r) => some ((digitsNat ds : ℚ) / (10 : ℚ) ^ ds.length, r)
  | _ => some (0, cs)

/-- Optional exponent part `[eE][+-]?ddd` of a JSON number. -/
def parseExpPart (cs : List Char) : Option (ℤ × List Char) :=
  match cs with
  | c :: rest =>
    if c = 'e' ∨ c = 'E' then
      match rest with
      | '+' :: rest2 =>
        match takeDigits rest2 with
        | ([], _) => none
        | (ds, r) => some ((digitsNat ds : ℤ), r)
      | '-' :: rest2 =>
        match takeDigits rest2 with
        | ([], _) => none
        | (ds, r) => some (-(digitsNat ds : ℤ), r)
      | _ =>
        match takeDigits rest with
        | ([], _) => none
        | (ds, r) => some ((digitsNat ds : ℤ), r)
    else some (0, cs)
  | [] => some (0, cs)

/-- Nonnegative JSON number (no leading zeros), value as an exact rational. -/
def parseNumPos (cs : List Char) : Option (ℚ × List Char) :=
  match takeDigits cs with
  | ([], _) => none
  | (ds, rest1) =>
    if 2 ≤ ds.length ∧ ds.head? = some '0' then none
    else
      match parseFrac rest1 with
      | none => none
      | some (fq, rest2) =>
        match parseExpPart rest2 with
        | none => none
        | some (e, rest3) =>
          some (((digitsNat ds : ℚ) + fq) * (10 : ℚ) ^ e, rest3)

/-- JSON number with optional leading minus sign. -/
def parseNum (cs : List Char) : Option (ℚ × List Char) :=
  match cs with
  | '-' :: rest => (parseNumPos rest).map (fun p => (-p.1, p.2))
  | _ => parseNumPos cs

mutual

/-- One JSON value (with leading whitespace), returning the rest. -/
def parseVal : ℕ → List Char → Option (JValue × List Char)
  | 0, _ => none
  | f + 1, cs =>
    match skipWs cs with
    | [] => none
    | c :: rest =>
      if c = '{' then
        match parseObjBody f rest [] true with
        | some (kvs, r) => some (JValue.obj kvs, r)
        | none => none
      else if c = '[' then
        match parseArrBody f rest [] true with
        | some (vs, r) => some (JValue.arr vs, r)
        | none => none
      else if c = '"' then
        match parseStrGo (rest.length + 1) rest [] with
        | some (s, r) => some (JValue.str s, r)
        | none => none
      else if c = 't' then
        match rest with
        | 'r' :: 'u' :: 'e' :: r => some (JValue.bool true, r)
        | _ => none
      else if c = 'f' then
        match rest with
        | 'a' :: 'l' :: 's' :: 'e' :: r => some (JValue.bool false, r)
        | _ => none
      else if c = 'n' then
        match rest with
        | 'u' :: 'l' :: 'l' :: r => some (JValue.null, r)
        | _ => none
      else if c.isDigit || c = '-' then
        match parseNum (c :: rest) with
        | some (q, r) => some (JValue.num q, r)
        | none => none
      else none

/-- Members of a JSON object after the opening brace; `first` is true when no
member has been consumed yet (so a closing brace is allowed). -/
def parseObjBody : ℕ → List Char → List (String × JValue) → Bool →
    Option (List (String × JValue) × List Char)
  | 0, _, _, _ => none
  | f + 1, cs, acc, first =>
    match skipWs cs with
    | [] => none
    | c :: rest =>
      if c = '}' then (if first then some (acc.reverse, rest) else none)
      else if c = '"' then
        match parseStrGo (rest.length + 1) rest [] with
        | none => none
        | some (k, r1) =>
          match skipWs r1 with
          | ':' :: r2 =>
            match parseVal f r2 with
            | none => none
            | some (v, r3) =>
              match skipWs r3 with
              | ',' :: r4 => parseObjBody f r4 ((k, v) :: acc) false
              | '}' :: r4 => some (((k, v) :: acc).reverse, r4)
              | _ => none
          | _ => none
      else none

/-- Elements of a JSON array after the opening bracket. -/
def parseArrBody : ℕ → List Char → List JValue → Bool →
    Option (List JValue × List Char)
  | 0, _, _, _ => none
  | f + 1, cs, acc, first =>
    match skipWs cs with
    | [] => none
    | c :: rest =>
      if first && (c == ']') then some (acc.reverse, rest)
      else
        match parseVal f (c :: rest) with
        | none => none
        | some (v, r1) =>
          match skipWs r1 with
          | ',' :: r2 => parseArrBody f r2 (v :: acc) false
          | ']' :: r2 => some ((v :: acc).reverse, r2)
          | _ => none

end

/-- Model of `json.loads` on a string: one JSON value, then only whitespace. -/
def jsonParse (s : String) : Option JValue :=
  match parseVal (2 * s.data.length + 8) s.data with
  | some (v, rest) => if (skipWs rest).isEmpty then some v else none
  | none => none

/- §4  Models of the two `re.search` patterns and the extractors.

   Pattern A (fenced): ```json\s*(\x7b.*?\x7d|\[.*?\])\s*``` with DOTALL
   (and IGNORECASE in agents.py).  `re.search` takes the leftmost start;
   the lazy group makes the span end at the first closing brace/bracket
   that is followed by optional whitespace and three backticks.
   Pattern B (bare): (\x7b.*\x7d|\[.*\]) with DOTALL: leftmost opening
   brace/bracket that has a matching closing character anywhere after it,
   extending greedily to the last such closing character. -/

/-- Python `\s` for the characters occurring in practice (ASCII whitespace). -/
def pySpace (c : Char) : Bool :=
  c = ' ' || c = '\t' || c = '\n' || c = '\r' || c = '\x0b' || c = '\x0c'

/-- Skip regex whitespace. -/
def dropPyWs (cs : List Char) : List Char := cs.dropWhile pySpace

/-- Match a literal (case-insensitively when `ci`), returning the rest. -/
def matchLit (ci : Bool) : List Char → List Char → Option (List Char)
  | [], cs => some cs
  | _ :: _, [] => none
  | l :: ls, c :: cs =>
    if (if ci then c.toLower = l else c = l) then matchLit ci ls cs else none

/-- The backtick character U+0060. -/
def btick : Char := Char.ofNat 96

/-- The literal opening of a labelled fenced block. -/
def fenceLit : List Char := [btick, btick, btick, 'j', 's', 'o', 'n']

/-- The closing three backticks. -/
def ticks3 : List Char := [btick, btick, btick]

/-- Lazy scan for the first `close` character that is followed by optional
whitespace and three backticks; returns the span accumulated so far
(reversed in `acc`) including the closer. -/
def lazyClose (close : Char) : List Char → List Char → Option (List Char)
  | _, [] => none
  | acc, c :: rest =>
    if c = close && (matchLit false ticks3 (dropPyWs rest)).isSome then
      some ((c :: acc).reverse)
    else lazyClose close (c :: acc) rest

/-- Leftmost match of pattern A, returning the parenthesised group. -/
def findFencedFrom (ci : Bool) : List Char → Option (List Char)
  | [] => none
  | c :: rest =>
    match matchLit ci fenceLit (c :: rest) with
    | some after =>
      (match dropPyWs after with
       | [] => findFencedFrom ci rest
       | b :: t =>
         if b = '{' then
           match lazyClose '}' ['{'] t with
           | some span => some span
           | none => findFencedFrom ci rest
         else if b = '[' then
           match lazyClose ']' ['['] t with
           | some span => some span
           | none => findFencedFrom ci rest
         else findFencedFrom ci rest)
    | none => findFencedFrom ci rest

/-- Take characters up to and including the last occurrence of `close`;
`none` when `close` does not occur. -/
def takeToLast (close : Char) : List Char → Option (List Char)
  | [] => none
  | c :: rest =>
    match takeToLast close rest with
    | some t => some (c :: t)
    | none => if c = close then some [c] else none

/-- Leftmost match of pattern B, returning the greedy group. -/
def findBareFrom : List Char → Option (List Char)
  | [] => none
  | c :: rest =>
    if c = '{' then
      match takeToLast '}' rest with
      | some t => some ('{' :: t)
      | none => findBareFrom rest
    else if c = '[' then
      match takeToLast ']' rest with
      | some t => some ('[' :: t)
      | none => findBareFrom rest
    else findBareFrom rest

/-- Model of `format_data._extract_json_in_backticks` on a string (src/agents.py
lines 847-855): the labelled fenced block first (IGNORECASE), then the bare
span; `none` when neither matches. -/
def extractStr (s : String) : Option String :=
  match findFencedFrom true s.data with
  | some span => some (String.mk span)
  | none => (findBareFrom s.data).map String.mk

/-- Model of `format_data._extract_json_in_backticks`: `None` on non-string input. -/
def extract_json_in_backticks (x : JValue) : Option String :=
  match x with
  | JValue.str s => extractStr s
  | _ => none

/-- Python `a or b` for an optional string `a` (an empty extracted span,
impossible in practice, would be falsy). -/
def pyOrStr (a : Option String) (b : String) : String :=
  match a with
  | some x => if x = "" then b else x
  | none => b

/-- Model of `raw = self._extract_json_in_backticks(x) or x` as a `JValue`. -/
def jRaw (x : JValue) : JValue :=
  match x with
  | JValue.str s => JValue.str (pyOrStr (extractStr s) s)
  | _ => x

/-- Model of `_parse_json_blocks` (src/main.py lines 18-46): structured values pass
through unchanged; strings go through the fenced pattern and `json.loads`,
falling back to the bare pattern, with every `JSONDecodeError` absorbed;
anything else gives `None`. -/
def parse_json_blocks (x : JValue) : Option JValue :=
  match x with
  | JValue.arr _ => some x
  | JValue.obj _ => some x
  | JValue.str s =>
    match
      (match findFencedFrom false s.data with
       | some span => jsonParse (String.mk span)
       | none => none) with
    | some v => some v
    | none =>
      match findBareFrom s.data with
      | some span => jsonParse (String.mk span)
      | none => none
  | _ => none

/-- The outer extraction applied to the result of the previous extraction, with
Python `None` represented by `JValue.null` (itself neither list, dict nor
str, hence mapped to `None`). -/
def parseJsonBlocksO (o : Option JValue) : Option JValue :=
  parse_json_blocks (o.getD JValue.null)

/- §5  The normalizers of `format_data` (src/agents.py lines 857-947). -/

/-- Python exceptions escaping a normalizer. -/
inductive PyErr where
  | attributeError : PyErr
  | typeError : PyErr

/-- One element of the output of `format_city_suggestions`: the nine documented
keys, each `item.get(key, default)`. -/
def fcsElem (kvs : List (String × JValue)) : JValue :=
  JValue.obj
    [("place", jGetD kvs ("place") (JValue.str ("Unknown"))),
     ("reason", jGetD kvs ("reason") (JValue.str ("No reason provided."))),
     ("weather_suitability", jGetD kvs ("weather_suitability") (JValue.str ("—"))),
     ("travel_cost_estimate", jGetD kvs ("travel_cost_estimate") (JValue.obj [])),
     ("accommodation_range", jGetD kvs ("accommodation_range") (JValue.str ("—"))),
     ("safety_rating", jGetD kvs ("safety_rating") (JValue.str ("—"))),
     ("accessibility", jGetD kvs ("accessibility") (JValue.str ("—"))),
     ("permit_required", jGetD kvs ("permit_required") (JValue.str ("—"))),
     ("photos", jGetD kvs ("photos") (JValue.arr []))]

/-- The normalization of one parsed element (total helper). -/
def normObj (v : JValue) : JValue :=
  match v with
  | JValue.obj kvs => fcsElem kvs
  | _ => JValue.null

/-- The `for item in places` loop: `item.get` raises `AttributeError` on the
first element that is not a mapping. -/
def normList : List JValue → Except PyErr (List JValue)
  | [] => Except.ok []
  | JValue.obj kvs :: rest => (normList rest).map (fun l => fcsElem kvs :: l)
  | _ :: _ => Except.error PyErr.attributeError

/-- Model of `format_data.format_city_suggestions` (src/agents.py lines 857-883).
A list input is used directly; otherwise the extracted-or-original payload is
passed to `json.loads` and any exception there gives `[]`.  The loop then
iterates the parsed value: mappings are normalized, any other element raises
`AttributeError`; iterating a non-empty dict yields string keys (again
`AttributeError`), iterating a non-empty string yields characters (again
`AttributeError`), and a non-iterable parse result raises `TypeError`. -/
def format_city_suggestions (x : JValue) : Except PyErr (List JValue) :=
  match x with
  | JValue.arr items => normList items
  | _ =>
    match
      (match jRaw x with
       | JValue.str s => jsonParse s
       | _ => none) with
    | none => Except.ok []
    | some (JValue.arr items) => normList items
    | some (JValue.obj kvs) =>
      if kvs.isEmpty then Except.ok [] else Except.error PyErr.attributeError
    | some (JValue.str s) =>
      if s.isEmpty then Except.ok [] else Except.error PyErr.attributeError
    | some _ => Except.error PyErr.typeError

/-- Model of `data.get(k, []) if isinstance(data.get(k, []), list) else []`. -/
def keepList (v : JValue) : JValue :=
  match v with
  | JValue.arr l => JValue.arr l
  | _ => JValue.arr []

/-- Model of `format_data.format_local_expertise` (src/agents.py lines 885-895):
`\x7b\x7d` when `json.loads` fails; otherwise `data.get` on the parsed value,
which raises `AttributeError` when that value is not a mapping. -/
def format_local_expertise (x : JValue) : Except PyErr JValue :=
  match
    (match jRaw x with
     | JValue.str s => jsonParse s
     | v => some (if jTruthy v then v else JValue.obj [])) with
  | none => Except.ok (JValue.obj [])
  | some d =>
    match d with
    | JValue.obj kvs =>
      Except.ok (JValue.obj
        [("top_attractions", keepList (jGetD kvs ("top_attractions") (JValue.arr []))),
         ("local_cuisine", keepList (jGetD kvs ("local_cuisine") (JValue.arr [])))])
    | _ => Except.error PyErr.attributeError

/-- The error record of `format_trip_schedule`. -/
def errSchedule : JValue :=
  JValue.obj [("error", JValue.str ("Invalid JSON format received from the model."))]

/-- Model of `format_data.format_trip_schedule` (src/agents.py lines 897-904): dicts
pass through; otherwise parse `extract(x) or (x or "")`, any failure giving
the error record. -/
def format_trip_schedule (x : JValue) : JValue :=
  match x with
  | JValue.obj _ => x
  | _ =>
    match
      (match extract_json_in_backticks x with
       | some sp => if sp = "" then (if jTruthy x then x else JValue.str ("")) else JValue.str sp
       | none => if jTruthy x then x else JValue.str ("")) with
    | JValue.str s => (jsonParse s).getD errSchedule
    | _ => errSchedule

/-- Model of `format_data.format_safety_info` (src/agents.py lines 907-912): parse
`extract(raw) or raw`, returning the parsed value unchanged, `\x7b\x7d` when
`json.loads` raises (including `TypeError` on non-string input). -/
def format_safety_info (x : JValue) : JValue :=
  match jRaw x with
  | JValue.str s => (jsonParse s).getD (JValue.obj [])
  | _ => JValue.obj []

/-- Model of `format_data.format_packing_list` (src/agents.py lines 914-919). -/
def format_packing_list (x : JValue) : JValue :=
  match jRaw x with
  | JValue.str s => (jsonParse s).getD (JValue.obj [])
  | _ => JValue.obj []

/-- Model of `format_data.format_budget_breakdown` (src/agents.py lines 921-926). -/
def format_budget_breakdown (x : JValue) : JValue :=
  match jRaw x with
  | JValue.str s => (jsonParse s).getD (JValue.obj [])
  | _ => JValue.obj []

/-- Model of `format_data.format_transport_options` (src/agents.py lines 928-933). -/
def format_transport_options (x : JValue) : JValue :=
  match jRaw x with
  | JValue.str s => (jsonParse s).getD (JValue.obj [])
  | _ => JValue.obj []

/-- Model of `format_data.format_accommodation_suggestions` (src/agents.py 935-940). -/
def format_accommodation_suggestions (x : JValue) : JValue :=
  match jRaw x with
  | JValue.str s => (jsonParse s).getD (JValue.obj [])
  | _ => JValue.obj []

/-- Model of `format_data.format_reviews` (src/agents.py lines 942-947). -/
def format_reviews (x : JValue) : JValue :=
  match jRaw x with
  | JValue.str s => (jsonParse s).getD (JValue.obj [])
  | _ => JValue.obj []

/- §6  Weather attachment and the wizard stage guard. -/

/-- Model of `weather if weather else \x7b\x7d`. -/
def weatherVal (o : Option (List (String × JValue))) : JValue :=
  match o with
  | some w => JValue.obj w
  | none => JValue.obj []

/-- The per-candidate body of the weather loop in `Tripcrew.run`
(src/agents.py lines 713-721): read `place.get("place")`, and when truthy
store the lookup result (or an empty mapping on failure) under "weather". -/
def attachOne (lookup : JValue → Option (List (String × JValue)))
    (pl : JValue) : JValue :=
  match pl with
  | JValue.obj kvs =>
    match jGetOpt kvs ("place") with
    | some cv =>
      if jTruthy cv then JValue.obj (jSet kvs ("weather") (weatherVal (lookup cv)))
      else pl
    | none => pl
  | _ => pl

/-- The weather side-fetch of `Tripcrew.run`: performed only when
`should_show_weather()` holds, one lookup per candidate. -/
def attachWeather (gate : Bool)
    (lookup : JValue → Option (List (String × JValue)))
    (places : List JValue) : List JValue :=
  if gate then places.map (attachOne lookup) else places

/-- The wizard-state fields used by the local-insights stage
(src/main.py `_init_state` / `step2_local_insights`). -/
structure WizardState where
  step : ℕ
  selected_attractions : List String
  selected_cuisines : List String
  itinerary : Option JValue

/-- Model of `can_continue = bool(selected_attractions or selected_cuisines)`
(src/main.py line 326). -/
def can_continue (s : WizardState) : Bool :=
  !s.selected_attractions.isEmpty || !s.selected_cuisines.isEmpty

/-- The forward transition out of the local-insights stage (src/main.py
lines 326-336): the continue button is disabled unless `can_continue`, and
clicking it stores the normalized schedule and sets the stage index to 3;
`raw` is the generation result for the itinerary. -/
def step2_continue (raw : JValue) (s : WizardState) : WizardState :=
  if can_continue s then
    { s with itinerary := some (format_trip_schedule raw), step := 3 }
  else s

/- §7  Concrete instances used by witnesses and counterexamples. -/

/-- The nine documented keys of a destination-candidate record. -/
def nineKeys : List String :=
  ["place", "reason", "weather_suitability", "travel_cost_estimate",
   "accommodation_range", "safety_rating", "accessibility",
   "permit_required", "photos"]

/-- A fixed current date used in concrete weather-gate scenarios. -/
def today0 : ℕ × ℕ × ℕ := (2026, 10, 12)

/-- Holiday-based preferences starting two days from `today0`. -/
def pHol2 : Prefs := ⟨none, none, some ("2026-10-14"), some ("holiday_based")⟩

/-- Holiday-based preferences starting ten days from `today0`. -/
def pHol10 : Prefs := ⟨none, none, some ("2026-10-22"), some ("holiday_based")⟩

/-- Season-based preferences starting two days from `today0`. -/
def pSeason : Prefs := ⟨none, none, some ("2026-10-14"), some ("season_based")⟩

/-- Preferences with a 60000 total budget and no category ranges. -/
def p60000 : Prefs := ⟨some 60000, none, none, none⟩

/-- Preferences with a zero total budget and no category ranges. -/
def pZero : Prefs := ⟨some 0, none, none, none⟩

/-- Category ranges with one non-null entry. -/
def keepRanges : BudgetRanges := ⟨some (1, 2), none, none, none⟩

/-- Preferences supplying both a total and one non-null category range. -/
def pKeep : Prefs := ⟨some 999999, some keepRanges, none, none⟩

/-- A destination-candidate record as stored by the city-selection stage. -/
def plHampi : JValue := JValue.obj [("place", JValue.str ("Hampi"))]

/-- Local-insights wizard state with both selection sets empty. -/
def wsEmptySel : WizardState := ⟨2, [], [], none⟩

/-- Local-insights wizard state with one selected attraction. -/
def wsPicked : WizardState := ⟨2, ["Virupaksha Temple"], [], none⟩

/- §8  Helper lemmas for the binary64 rounding model. -/

theorem log2fuel_bounds : ∀ f n : ℕ, 0 < n → n < 2 ^ f →
    2 ^ log2fuel f n ≤ n ∧ n < 2 ^ (log2fuel f n + 1) := by
  intro f
  induction f with
  | zero => intro n h1 h2; norm_num at h2; omega
  | succ f ih =>
    intro n h1 h2
    by_cases h : n < 2
    · have hn1 : n = 1 := by omega
      subst hn1
      simp [log2fuel]
    · have hp : (2 : ℕ) ^ (f + 1) = 2 * 2 ^ f := by rw [pow_succ]; ring
      have h2f : n / 2 < 2 ^ f := by omega
      have hrec := ih (n / 2) (by omega) h2f
      have hstep : log2fuel (f + 1) n = log2fuel f (n / 2) + 1 := by
        simp [log2fuel, h]
      rw [hstep]
      have e1 : (2 : ℕ) ^ (log2fuel f (n / 2) + 1) =
          2 * 2 ^ log2fuel f (n / 2) := by rw [pow_succ]; ring
      have e2 : (2 : ℕ) ^ (log2fuel f (n / 2) + 1 + 1) =
          2 * 2 ^ (log2fuel f (n / 2) + 1) := by rw [pow_succ]; ring
      omega

theorem nlog2_bounds (n : ℕ) (h1 : 0 < n) (h2 : n < 2 ^ 128) :
    2 ^ nlog2 n ≤ n ∧ n < 2 ^ (nlog2 n + 1) :=
  log2fuel_bounds 128 n h1 h2

theorem nlog2_ge_53 (n : ℕ) (h : ¬n < 2 ^ 53) (hn : n < 2 ^ 128) :
    53 ≤ nlog2 n := by
  have h0 : 0 < n := by
    have : (2 : ℕ) ^ 53 ≤ n := le_of_not_lt h
    have : (0 : ℕ) < 2 ^ 53 := by positivity
    omega
  have hb := nlog2_bounds n h0 hn
  by_contra hc
  push_neg at hc
  have : n < 2 ^ 53 :=
    lt_of_lt_of_le hb.2 (pow_le_pow_right₀ (by norm_num) (by omega))
  exact h this

theorem roundAt_close (n d : ℕ) (hd : 1 ≤ d) :
    roundAt n d ≤ n + 2 ^ (d - 1) ∧ n ≤ roundAt n d + 2 ^ (d - 1) := by
  have h1 : n / 2 ^ d * 2 ^ d + n % 2 ^ d = n := by
    rw [mul_comm]; exact Nat.div_add_mod n (2 ^ d)
  have h2 : n % 2 ^ d < 2 ^ d := Nat.mod_lt _ (by positivity)
  have h3 : (2 : ℕ) ^ d = 2 * 2 ^ (d - 1) := by
    have hd1 : d = (d - 1) + 1 := by omega
    conv_lhs => rw [hd1]
    rw [pow_succ]; ring
  unfold roundAt
  simp only [add_mul, one_mul]
  generalize n / 2 ^ d = Q at *
  generalize hR : n % 2 ^ d = R at *
  generalize hP : Q * 2 ^ d = P at *
  generalize hH : (2 : ℕ) ^ (d - 1) = H at *
  generalize hD : (2 : ℕ) ^ d = D at *
  split_ifs <;> omega

theorem rneVal_close (n : ℕ) (hn : n < 2 ^ 128) :
    rneVal n ≤ n + errT n ∧ n ≤ rneVal n + errT n := by
  unfold rneVal errT
  by_cases h : n < 2 ^ 53
  · rw [if_pos h, if_pos h]; omega
  · rw [if_neg h, if_neg h]
    have hL53 := nlog2_ge_53 n h hn
    have hd1 : 1 ≤ nlog2 n - 52 := by omega
    have hres := roundAt_close n (nlog2 n - 52) hd1
    have heq : nlog2 n - 52 - 1 = nlog2 n - 53 := by omega
    rw [heq] at hres
    exact hres

theorem rneVal_exact (n : ℕ) (h : n ≤ 2 ^ 53) : rneVal n = n := by
  rcases lt_or_eq_of_le h with hlt | heq
  · unfold rneVal; rw [if_pos hlt]
  · subst heq; decide

theorem errT_le (c t : ℕ) (hc : c < 2 ^ 53) (ht : 1 ≤ t)
    (hx : c * t < 2 ^ 128) : errT (c * t) ≤ t := by
  unfold errT
  by_cases h : c * t < 2 ^ 53
  · rw [if_pos h]; omega
  · rw [if_neg h]
    have h0 : 0 < c * t := by
      have : (2 : ℕ) ^ 53 ≤ c * t := le_of_not_lt h
      have : (0 : ℕ) < 2 ^ 53 := by positivity
      omega
    have hb := nlog2_bounds (c * t) h0 hx
    have h53 := nlog2_ge_53 (c * t) h hx
    have hlt : c * t < 2 ^ 53 * t :=
      (Nat.mul_lt_mul_right (by omega)).mpr hc
    have hkey : (2 : ℕ) ^ nlog2 (c * t) < 2 ^ 53 * t :=
      lt_of_le_of_lt hb.1 hlt
    have hsplit : (2 : ℕ) ^ nlog2 (c * t) =
        2 ^ (nlog2 (c * t) - 53) * 2 ^ 53 := by
      rw [← pow_add]
      congr 1
      omega
    rw [hsplit, mul_comm ((2 : ℕ) ^ 53) t] at hkey
    exact le_of_lt (lt_of_mul_lt_mul_right hkey (by positivity))

theorem budget_transport_le (t : ℕ) (h1 : 1 ≤ t) (h2 : t ≤ 2 ^ 53) :
    pyMulTruncNat 1 2 t ≤ pyMulTruncNat c35m 54 t := by
  unfold pyMulTruncNat
  rw [one_mul, rneVal_exact t h2]
  have hx : c35m * t < 2 ^ 128 := by
    calc c35m * t ≤ c35m * 2 ^ 53 := Nat.mul_le_mul_left _ h2
    _ < 2 ^ 128 := by norm_num [c35m]
  have hcl := rneVal_close (c35m * t) hx
  have herr := errT_le c35m t (by norm_num [c35m]) h1 hx
  have hmul : t * 2 ^ 52 + t ≤ c35m * t := by
    have hb : (2 ^ 52 + 1) * t ≤ c35m * t :=
      Nat.mul_le_mul_right t (by norm_num [c35m])
    calc t * 2 ^ 52 + t = (2 ^ 52 + 1) * t := by ring
    _ ≤ c35m * t := hb
  have hkey : t * 2 ^ 52 ≤ rneVal (c35m * t) := by omega
  calc t / 2 ^ 2 = t * 2 ^ 52 / (2 ^ 2 * 2 ^ 52) :=
      (Nat.mul_div_mul_right t (2 ^ 2) (by positivity)).symm
  _ = t * 2 ^ 52 / 2 ^ 54 := by norm_num
  _ ≤ rneVal (c35m * t) / 2 ^ 54 := Nat.div_le_div_right hkey

theorem budget_accommodation_le (t : ℕ) (h1 : 1 ≤ t) (h2 : t ≤ 2 ^ 53) :
    pyMulTruncNat c35m 54 t ≤ pyMulTruncNat c45m 54 t := by
  unfold pyMulTruncNat
  have hx35 : c35m * t < 2 ^ 128 := by
    calc c35m * t ≤ c35m * 2 ^ 53 := Nat.mul_le_mul_left _ h2
    _ < 2 ^ 128 := by norm_num [c35m]
  have hx45 : c45m * t < 2 ^ 128 := by
    calc c45m * t ≤ c45m * 2 ^ 53 := Nat.mul_le_mul_left _ h2
    _ < 2 ^ 128 := by norm_num [c45m]
  have hcl35 := rneVal_close (c35m * t) hx35
  have hcl45 := rneVal_close (c45m * t) hx45
  have herr35 := errT_le c35m t (by norm_num [c35m]) h1 hx35
  have herr45 := errT_le c45m t (by norm_num [c45m]) h1 hx45
  have hmul : c35m * t + t + t ≤ c45m * t := by
    have hb : (c35m + 2) * t ≤ c45m * t :=
      Nat.mul_le_mul_right t (by norm_num [c35m, c45m])
    calc c35m * t + t + t = (c35m + 2) * t := by ring
    _ ≤ c45m * t := hb
  have hkey : rneVal (c35m * t) ≤ rneVal (c45m * t) := by omega
  exact Nat.div_le_div_right hkey

theorem budget_food_le (t : ℕ) (h1 : 1 ≤ t) (h2 : t ≤ 2 ^ 53) :
    pyMulTruncNat c15m 55 t ≤ pyMulTruncNat 1 2 t := by
  unfold pyMulTruncNat
  rw [one_mul, rneVal_exact t h2]
  have hx : c15m * t < 2 ^ 128 := by
    calc c15m * t ≤ c15m * 2 ^ 53 := Nat.mul_le_mul_left _ h2
    _ < 2 ^ 128 := by norm_num [c15m]
  have hcl := rneVal_close (c15m * t) hx
  have herr := errT_le c15m t (by norm_num [c15m]) h1 hx
  have hmul : c15m * t + t ≤ t * 2 ^ 53 := by
    have hb : (c15m + 1) * t ≤ 2 ^ 53 * t :=
      Nat.mul_le_mul_right t (by norm_num [c15m])
    calc c15m * t + t = (c15m + 1) * t := by ring
    _ ≤ 2 ^ 53 * t := hb
    _ = t * 2 ^ 53 := by ring
  have hkey : rneVal (c15m * t) ≤ t * 2 ^ 53 := by omega
  calc rneVal (c15m * t) / 2 ^ 55 ≤ t * 2 ^ 53 / 2 ^ 55 :=
      Nat.div_le_div_right hkey
  _ = t * 2 ^ 53 / (2 ^ 2 * 2 ^ 53) := by norm_num
  _ = t / 2 ^ 2 := Nat.mul_div_mul_right t (2 ^ 2) (by positivity)

theorem budget_entertainment_le (t : ℕ) (h1 : 1 ≤ t) (h2 : t ≤ 2 ^ 53) :
    pyMulTruncNat c05m 57 t ≤ pyMulTruncNat c15m 55 t := by
  unfold pyMulTruncNat
  have hx05 : c05m * t < 2 ^ 128 := by
    calc c05m * t ≤ c05m * 2 ^ 53 := Nat.mul_le_mul_left _ h2
    _ < 2 ^ 128 := by norm_num [c05m]
  have hx15 : c15m * t < 2 ^ 128 := by
    calc c15m * t ≤ c15m * 2 ^ 53 := Nat.mul_le_mul_left _ h2
    _ < 2 ^ 128 := by norm_num [c15m]
  have hcl05 := rneVal_close (c05m * t) hx05
  have hcl15 := rneVal_close (c15m * t) hx15
  have herr05 := errT_le c05m t (by norm_num [c05m]) h1 hx05
  have herr15 := errT_le c15m t (by norm_num [c15m]) h1 hx15
  have hmul : c05m * t + t + 4 * t ≤ 4 * (c15m * t) := by
    have hb : (c05m + 5) * t ≤ (4 * c15m) * t :=
      Nat.mul_le_mul_right t (by norm_num [c05m, c15m])
    calc c05m * t + t + 4 * t = (c05m + 5) * t := by ring
    _ ≤ (4 * c15m) * t := hb
    _ = 4 * (c15m * t) := by ring
  have hkey : rneVal (c05m * t) ≤ rneVal (c15m * t) * 2 ^ 2 := by
    have h4 : rneVal (c15m * t) * 2 ^ 2 = 4 * rneVal (c15m * t) := by ring
    omega
  calc rneVal (c05m * t) / 2 ^ 57 ≤ rneVal (c15m * t) * 2 ^ 2 / 2 ^ 57 :=
      Nat.div_le_div_right hkey
  _ = rneVal (c15m * t) * 2 ^ 2 / (2 ^ 55 * 2 ^ 2) := by norm_num
  _ = rneVal (c15m * t) / 2 ^ 55 :=
      Nat.mul_div_mul_right _ (2 ^ 55) (by positivity)

/- §9  Claim theorems: budget allocator. -/

/-- C2 counterexample: the claim fails as stated.  With `total = 0` (which is
`≥ 0` and supplied with no ranges) the code derives nothing, because a zero
total is Python-falsy — `budget_range` stays absent instead of becoming four
ranges.  Moreover the exact-floor formula is wrong for the binary64 code: at
`total = 180`, `int(0.35 * 180)` is 62 while `floor(0.35 · 180) = floor 63
= 63`. -/
theorem budget_auto_split_cex :
    (tripcrewInit pZero).budget_range = none ∧
    pyMulTruncNat c35m 54 180 = 62 ∧ ((7 : ℚ) / 20) * 180 = 63 :=
  ⟨rfl, by decide, by norm_num⟩

/-- C2 (amended): for every total with `1 ≤ total ≤ 2 ^ 53` supplied with no
usable category ranges (absent or all four null), the initialization stores
exactly four ranges — transport `[int(0.25·t), int(0.35·t)]`, accommodation
`[int(0.35·t), int(0.45·t)]`, food `[int(0.15·t), int(0.25·t)]`,
entertainment `[int(0.05·t), int(0.15·t)]`, the products taken in binary64
as the code does — and each range has `0 ≤ min ≤ max`; in particular
`total = 60000` yields `[15000,21000]`, `[21000,27000]`, `[9000,15000]`,
`[3000,9000]`. -/
theorem budget_auto_split_amended (t : ℤ) (h1 : 1 ≤ t) (h2 : t ≤ 2 ^ 53)
    (p : Prefs) (htot : p.total_budget = some t)
    (hbr : p.budget_range = none ∨
      ∃ r, p.budget_range = some r ∧ allNoneBR r = true) :
    (tripcrewInit p).budget_range = some (autoSplit t) ∧
    ∃ a1 b1 a2 b2 a3 b3 a4 b4 : ℤ,
      autoSplit t = ⟨some (a1, b1), some (a2, b2), some (a3, b3),
        some (a4, b4)⟩ ∧
      0 ≤ a1 ∧ a1 ≤ b1 ∧ 0 ≤ a2 ∧ a2 ≤ b2 ∧ 0 ≤ a3 ∧ a3 ≤ b3 ∧
      0 ≤ a4 ∧ a4 ≤ b4 := by
  have h0 : (0 : ℤ) ≤ t := by omega
  have htn1 : 1 ≤ t.toNat := by omega
  have htn2 : t.toNat ≤ 2 ^ 53 := by
    have : ((2 : ℤ) ^ 53) = ((2 ^ 53 : ℕ) : ℤ) := by norm_num
    omega
  have hInt : ∀ mc sc : ℕ, pyMulTruncInt mc sc t =
      (pyMulTruncNat mc sc t.toNat : ℤ) := by
    intro mc sc
    unfold pyMulTruncInt
    rw [if_pos h0]
  have hle : ∀ mc1 sc1 mc2 sc2 : ℕ,
      pyMulTruncNat mc1 sc1 t.toNat ≤ pyMulTruncNat mc2 sc2 t.toNat →
      pyMulTruncInt mc1 sc1 t ≤ pyMulTruncInt mc2 sc2 t := by
    intro mc1 sc1 mc2 sc2 h
    rw [hInt, hInt]
    exact_mod_cast h
  constructor
  · have hT : totalTruthy p.total_budget = true := by
      rw [htot]
      simp only [totalTruthy, bne_iff_ne, ne_eq]
      omega
    have hB : brFalsyOrAllNone p.budget_range = true := by
      rcases hbr with h | ⟨r, hr, ha⟩
      · rw [h]; rfl
      · rw [hr]; exact ha
    unfold tripcrewInit
    rw [hB, hT]
    simp [htot]
  · refine ⟨_, _, _, _, _, _, _, _, rfl, ?_, ?_, ?_, ?_, ?_, ?_, ?_, ?_⟩
    · rw [hInt]; positivity
    · exact hle _ _ _ _ (budget_transport_le t.toNat htn1 htn2)
    · rw [hInt]; positivity
    · exact hle _ _ _ _ (budget_accommodation_le t.toNat htn1 htn2)
    · rw [hInt]; positivity
    · exact hle _ _ _ _ (budget_food_le t.toNat htn1 htn2)
    · rw [hInt]; positivity
    · exact hle _ _ _ _ (budget_entertainment_le t.toNat htn1 htn2)

/-- C2 witness: the end-to-end 60000 scenario of the amended claim. -/
theorem budget_auto_split_amended_witness :
    (tripcrewInit p60000).budget_range =
      some ⟨some (15000, 21000), some (21000, 27000), some (9000, 15000),
        some (3000, 9000)⟩ := by
  have h := budget_auto_split_amended 60000 (by norm_num) (by norm_num)
    p60000 rfl (Or.inl rfl)
  rw [h.1]
  rfl

/- §10  Claim theorems: range passthrough (C3). -/

/-- C3: whenever at least one of the four categories is non-null,
`Tripcrew.__init__` returns the supplied ranges unchanged (the whole
preferences record is untouched), regardless of the total. -/
theorem budget_ranges_passthrough (p : Prefs) (r : BudgetRanges)
    (hbr : p.budget_range = some r)
    (hne : r.transport ≠ none ∨ r.accommodation ≠ none ∨ r.food ≠ none ∨
      r.entertainment ≠ none) :
    tripcrewInit p = p := by
  have hB : brFalsyOrAllNone p.budget_range = false := by
    rw [hbr]
    unfold brFalsyOrAllNone allNoneBR
    rcases hne with h | h | h | h
    · cases ht : r.transport with
      | none => exact absurd ht h
      | some v => simp [ht]
    · cases ht : r.accommodation with
      | none => exact absurd ht h
      | some v => simp [ht]
    · cases ht : r.food with
      | none => exact absurd ht h
      | some v => simp [ht]
    · cases ht : r.entertainment with
      | none => exact absurd ht h
      | some v => simp [ht]
  unfold tripcrewInit
  rw [hB]
  simp

/-- C3 witness: one non-null transport range survives a supplied total. -/
theorem budget_ranges_passthrough_witness : tripcrewInit pKeep = pKeep :=
  budget_ranges_passthrough pKeep keepRanges rfl
    (Or.inl (Option.some_ne_none _))

/- §11  Claim theorems: weather gate (C1). -/

theorem should_show_weather_absent_false (today : ℕ × ℕ × ℕ) (p : Prefs)
    (h : pyFalsyStr p.start_date = true ∨ pyFalsyStr p.planning_style = true) :
    should_show_weather today p = false := by
  unfold should_show_weather
  rcases h with h | h <;> rw [h] <;> simp

theorem should_show_weather_noparse_false (today : ℕ × ℕ × ℕ) (p : Prefs)
    (h : parseDateYMD (p.start_date.getD ("")) = none) :
    should_show_weather today p = false := by
  unfold should_show_weather
  by_cases hf : pyFalsyStr p.start_date || pyFalsyStr p.planning_style
  · rw [if_pos hf]
  · rw [if_neg hf, h]

/-- C1: `should_show_weather` is true exactly when the planning style is the
holiday-based value and the parsed start date lies 0 to 3 days after today;
it is false whenever the start date or planning style is absent or the start
date fails to parse as a %Y-%m-%d calendar date, and false for the
season-based style regardless of date. -/
theorem should_show_weather_gate (today : ℕ × ℕ × ℕ) (p : Prefs) :
    (should_show_weather today p = true ↔
      p.planning_style = some ("holiday_based") ∧
      ∃ y m d, parseDateYMD (p.start_date.getD ("")) = some (y, m, d) ∧
        0 ≤ toRD y m d - toRD today.1 today.2.1 today.2.2 ∧
        toRD y m d - toRD today.1 today.2.1 today.2.2 ≤ 3) ∧
    ((p.start_date = none ∨ p.planning_style = none ∨
      parseDateYMD (p.start_date.getD ("")) = none) →
      should_show_weather today p = false) ∧
    (p.planning_style = some ("season_based") →
      should_show_weather today p = false) := by
  have hiff : should_show_weather today p = true ↔
      p.planning_style = some ("holiday_based") ∧
      ∃ y m d, parseDateYMD (p.start_date.getD ("")) = some (y, m, d) ∧
        0 ≤ toRD y m d - toRD today.1 today.2.1 today.2.2 ∧
        toRD y m d - toRD today.1 today.2.1 today.2.2 ≤ 3 := by
    constructor
    · intro h
      by_cases hf : pyFalsyStr p.start_date || pyFalsyStr p.planning_style
      · rw [should_show_weather, if_pos hf] at h
        simp at h
      · rw [Bool.or_eq_true, not_or] at hf
        obtain ⟨hf1, hf2⟩ := hf
        cases hparse : parseDateYMD (p.start_date.getD ("")) with
        | none =>
          rw [should_show_weather_noparse_false today p hparse] at h
          simp at h
        | some ymd =>
          obtain ⟨y, m, d⟩ := ymd
          rw [should_show_weather] at h
          rw [if_neg (by rw [Bool.or_eq_true, not_or]; exact ⟨hf1, hf2⟩),
            hparse] at h
          simp only [Bool.and_eq_true, beq_iff_eq, decide_eq_true_eq] at h
          obtain ⟨⟨hh, h0⟩, h3⟩ := h
          exact ⟨hh, y, m, d, rfl, h0, h3⟩
    · rintro ⟨hh, y, m, d, hparse, h0, h3⟩
      have hf2 : pyFalsyStr p.planning_style = false := by
        rw [hh]; decide
      have hf1 : pyFalsyStr p.start_date = false := by
        cases hsd : p.start_date with
        | none =>
          rw [hsd] at hparse
          simp only [Option.getD_none] at hparse
          rw [show parseDateYMD ("") = none from by decide] at hparse
          simp at hparse
        | some sd =>
          simp only [pyFalsyStr]
          by_contra hc
          rw [Bool.not_eq_false] at hc
          have hsd0 : sd = "" := (String.isEmpty_iff sd).mp hc
          rw [hsd, hsd0] at hparse
          simp only [Option.getD_some] at hparse
          rw [show parseDateYMD ("") = none from by decide] at hparse
          simp at hparse
      rw [should_show_weather,
        if_neg (by rw [hf1, hf2]; simp), hparse]
      simp only [Bool.and_eq_true, beq_iff_eq, decide_eq_true_eq]
      exact ⟨⟨hh, h0⟩, h3⟩
  refine ⟨hiff, ?_, ?_⟩
  · intro h
    rcases h with h | h | h
    · exact should_show_weather_absent_false today p (Or.inl (by rw [h]; rfl))
    · exact should_show_weather_absent_false today p (Or.inr (by rw [h]; rfl))
    · exact should_show_weather_noparse_false today p h
  · intro h
    cases hval : should_show_weather today p with
    | false => rfl
    | true =>
      exfalso
      obtain ⟨hh, _⟩ := hiff.mp hval
      rw [h] at hh
      have := Option.some.inj hh
      exact absurd this (by decide)

/-- C1 witness: with today = 2026-10-12, a holiday-based trip starting
2026-10-14 (today + 2) triggers the gate, one starting 2026-10-22
(today + 10) does not, and a season-based trip never does. -/
theorem should_show_weather_gate_witness :
    should_show_weather today0 pHol2 = true ∧
    should_show_weather today0 pHol10 = false ∧
    should_show_weather today0 pSeason = false := by
  refine ⟨?_, ?_, ?_⟩
  · exact (should_show_weather_gate today0 pHol2).1.mpr
      ⟨rfl, 2026, 10, 14, by decide, by decide, by decide⟩
  · decide
  · exact (should_show_weather_gate today0 pSeason).2.2 rfl

/- §12  Claim theorems: wizard local-insights guard (C8). -/

/-- C8: the forward transition out of the local-insights stage is refused
(state unchanged, stage index unchanged) when both selection sets are empty,
and is permitted — storing the normalized itinerary and advancing the stage
index by one — whenever at least one set is non-empty. -/
theorem wizard_local_insights_guard (raw : JValue) (s : WizardState)
    (hstage : s.step = 2) :
    ((s.selected_attractions = [] ∧ s.selected_cuisines = []) →
      step2_continue raw s = s) ∧
    ((s.selected_attractions ≠ [] ∨ s.selected_cuisines ≠ []) →
      (step2_continue raw s).step = s.step + 1 ∧
      (step2_continue raw s).itinerary = some (format_trip_schedule raw)) := by
  constructor
  · rintro ⟨h1, h2⟩
    unfold step2_continue can_continue
    rw [h1, h2]
    simp
  · intro h
    have hc : can_continue s = true := by
      unfold can_continue
      rcases h with h | h
      · cases hA : s.selected_attractions with
        | nil => exact absurd hA h
        | cons a t => simp [hA]
      · cases hC : s.selected_cuisines with
        | nil => exact absurd hC h
        | cons a t => simp [hC]
    unfold step2_continue
    rw [hc]
    simp [hstage]

/-- C8 witness: with both sets empty the transition is refused; with one
selected attraction it advances the index from 2 to 3. -/
theorem wizard_local_insights_guard_witness :
    step2_continue (JValue.str ("x")) wsEmptySel = wsEmptySel ∧
    (step2_continue (JValue.str ("x")) wsPicked).step = wsPicked.step + 1 :=
  ⟨(wizard_local_insights_guard _ wsEmptySel rfl).1 ⟨rfl, rfl⟩,
   ((wizard_local_insights_guard _ wsPicked rfl).2
     (Or.inl (by simp [wsPicked]))).1⟩

/- §13  Claim theorems: weather attachment (C9). -/

theorem jGetOpt_jSet (kvs : List (String × JValue)) (k : String)
    (v : JValue) : jGetOpt (jSet kvs k v) k = some v := by
  unfold jSet jGetOpt
  by_cases h : kvs.any (fun p => p.1 == k)
  · rw [if_pos h, ← List.map_reverse, List.find?_map]
    have hpred : ((fun p : String × JValue => p.1 == k) ∘
        (fun p : String × JValue => if p.1 == k then (p.1, v) else p)) =
        fun p : String × JValue => p.1 == k := by
      funext p
      by_cases hp : p.1 = k
      · simp [hp]
      · simp [hp]
    rw [hpred]
    have hrev : kvs.reverse.any (fun p => p.1 == k) = true := by
      rw [List.any_reverse]; exact h
    obtain ⟨q, hq, hqk⟩ := List.any_eq_true.mp hrev
    obtain ⟨q0, hfind⟩ :=
      Option.isSome_iff_exists.mp
        ((@List.find?_isSome _ kvs.reverse
          (fun p : String × JValue => p.1 == k)).mpr ⟨q, hq, hqk⟩)
    have hk0 := List.find?_some hfind
    rw [hfind]
    have hk0' : q0.1 = k := by simpa using hk0
    simp [hk0']
  · rw [if_neg h, List.reverse_append]
    simp

/-- C9 counterexample: the claim fails as stated.  When the gate holds and
the lookup fails, the code stores an empty mapping under the "weather" key —
the slot is present (mapped to `\x7b\x7d`), not absent. -/
theorem weather_attach_cex :
    attachWeather true (fun _ => none) [plHampi] =
      [JValue.obj [("place", JValue.str ("Hampi")),
        ("weather", JValue.obj [])]] ∧
    jGetOpt [("place", JValue.str ("Hampi")), ("weather", JValue.obj [])]
      ("weather") = some (JValue.obj []) :=
  ⟨rfl, rfl⟩

/-- C9 (amended): a weather snapshot is attached only when the gate holds
(with the gate false the candidate list is returned untouched); with the gate
true, each candidate with a truthy "place" gets a "weather" entry holding the
snapshot on success and an empty mapping `\x7b\x7d` on failure — no exception
escapes (the lookup is total, failure being `none`) and no error value is
stored, but the slot is present, not absent. -/
theorem weather_attach_amended
    (lookup : JValue → Option (List (String × JValue)))
    (places : List JValue) :
    attachWeather false lookup places = places ∧
    attachWeather true lookup places = places.map (attachOne lookup) ∧
    (∀ kvs cv, jGetOpt kvs ("place") = some cv → jTruthy cv = true →
      attachOne lookup (JValue.obj kvs) =
        JValue.obj (jSet kvs ("weather") (weatherVal (lookup cv))) ∧
      jGetOpt (jSet kvs ("weather") (weatherVal (lookup cv))) ("weather") =
        some (weatherVal (lookup cv))) ∧
    (∀ w, weatherVal (some w) = JValue.obj w) ∧
    weatherVal none = JValue.obj [] := by
  refine ⟨rfl, rfl, ?_, fun w => rfl, rfl⟩
  intro kvs cv hget htr
  constructor
  · unfold attachOne
    dsimp only
    rw [hget]
    dsimp only
    rw [htr]
    simp
  · exact jGetOpt_jSet kvs ("weather") (weatherVal (lookup cv))

/-- C9 witness: a candidate with a truthy place name and a successful lookup
stores the snapshot; the gate-false path is untouched. -/
theorem weather_attach_amended_witness :
    attachOne (fun _ => some [("temperature", JValue.num 31)]) plHampi =
      JValue.obj [("place", JValue.str ("Hampi")),
        ("weather", JValue.obj [("temperature", JValue.num 31)])] ∧
    attachWeather false (fun _ => some [("temperature", JValue.num 31)])
      [plHampi] = [plHampi] := by
  constructor
  · exact ((weather_attach_amended
      (fun _ => some [("temperature", JValue.num 31)]) []).2.2.1
        [("place", JValue.str ("Hampi"))] (JValue.str ("Hampi")) rfl rfl).1
  · exact (weather_attach_amended
      (fun _ => some [("temperature", JValue.num 31)]) [plHampi]).1

/- §14  Claim theorems: normalizer shape (C10, C4, C5). -/

theorem jKeys_fcsElem (kvs : List (String × JValue)) :
    jKeys (fcsElem kvs) = nineKeys := rfl

theorem normList_all_obj (its : List JValue)
    (h : ∀ v ∈ its, isObjB v = true) :
    normList its = Except.ok (its.map normObj) := by
  induction its with
  | nil => rfl
  | cons v rest ih =>
    have hv := h v (List.mem_cons_self _ _)
    have hr := ih (fun w hw => h w (List.mem_cons_of_mem _ hw))
    cases v with
    | obj kvs => simp [normList, hr, normObj, Except.map]
    | null => simp [isObjB] at hv
    | bool b => simp [isObjB] at hv
    | num q => simp [isObjB] at hv
    | str s => simp [isObjB] at hv
    | arr l => simp [isObjB] at hv

/-- C10: for every input list whose elements are all mappings,
`format_city_suggestions` succeeds with a list of the same length in the same
order, each output element being the normalization of the corresponding input
element and carrying exactly the nine documented keys (extra source keys are
not carried through). -/
theorem city_suggestions_shape (items : List JValue)
    (h : ∀ v ∈ items, isObjB v = true) :
    format_city_suggestions (JValue.arr items) =
      Except.ok (items.map normObj) ∧
    (items.map normObj).length = items.length ∧
    ∀ w ∈ items.map normObj, jKeys w = nineKeys := by
  refine ⟨normList_all_obj items h, List.length_map _ _, ?_⟩
  intro w hw
  obtain ⟨v, hv, rfl⟩ := List.mem_map.mp hw
  have hvo := h v hv
  cases v with
  | obj kvs => exact jKeys_fcsElem kvs
  | null => simp [isObjB] at hvo
  | bool b => simp [isObjB] at hvo
  | num q => simp [isObjB] at hvo
  | str s => simp [isObjB] at hvo
  | arr l => simp [isObjB] at hvo

/-- C10 witness: one mapping element with an extra key normalizes to a record
with exactly the nine documented keys. -/
theorem city_suggestions_shape_witness :
    format_city_suggestions
      (JValue.arr [JValue.obj [("place", JValue.str ("Hampi")),
        ("extra", JValue.num 1)]]) =
      Except.ok [normObj (JValue.obj [("place", JValue.str ("Hampi")),
        ("extra", JValue.num 1)])] ∧
    jKeys (normObj (JValue.obj [("place", JValue.str ("Hampi")),
      ("extra", JValue.num 1)])) = nineKeys := by
  have h := city_suggestions_shape
    [JValue.obj [("place", JValue.str ("Hampi")), ("extra", JValue.num 1)]]
    (by intro v hv; rw [List.mem_singleton] at hv; subst hv; rfl)
  exact ⟨h.1, h.2.2 _ (List.mem_map.mpr ⟨_, List.mem_singleton.mpr rfl, rfl⟩)⟩

/-- C5 counterexample: the claim fails as stated.  A malformed (non-mapping)
element is not dropped: `item.get` raises `AttributeError`, aborting the
whole list (the well-formed second element notwithstanding). -/
theorem city_suggestions_malformed_cex :
    format_city_suggestions (JValue.arr [JValue.num 1, JValue.obj []]) =
      Except.error PyErr.attributeError := rfl

/-- C5 (amended): `format_city_suggestions` returns without raising exactly
when every element of the (given or parsed) list is a mapping; a non-mapping
element raises `AttributeError`, aborting the whole call rather than being
dropped; a payload whose extraction/parse fails degrades to the empty list
rather than raising. -/
theorem city_suggestions_malformed_amended :
    (∀ items : List JValue,
      format_city_suggestions (JValue.arr items) = normList items) ∧
    (∀ items : List JValue,
      (∃ l, normList items = Except.ok l) ↔ ∀ v ∈ items, isObjB v = true) ∧
    (∀ s, jsonParse (pyOrStr (extractStr s) s) = none →
      format_city_suggestions (JValue.str s) = Except.ok []) := by
  refine ⟨fun items => rfl, ?_, ?_⟩
  · intro items
    induction items with
    | nil => exact ⟨fun _ => fun v hv => absurd hv (List.not_mem_nil v),
        fun _ => ⟨[], rfl⟩⟩
    | cons v rest ih =>
      cases v with
      | obj kvs =>
        constructor
        · rintro ⟨l, hl⟩
          intro w hw
          rcases List.mem_cons.mp hw with rfl | hw2
          · rfl
          · rcases hr : normList rest with e | lr
            · rw [show normList (JValue.obj kvs :: rest) =
                (normList rest).map (fun l => fcsElem kvs :: l) from rfl,
                hr] at hl
              simp [Except.map] at hl
            · exact ih.mp ⟨lr, hr⟩ w hw2
        · intro hall
          obtain ⟨lr, hr⟩ := ih.mpr
            (fun w hw => hall w (List.mem_cons_of_mem _ hw))
          exact ⟨fcsElem kvs :: lr,
            by rw [show normList (JValue.obj kvs :: rest) =
              (normList rest).map (fun l => fcsElem kvs :: l) from rfl, hr]
               rfl⟩
      | null =>
        constructor
        · rintro ⟨l, hl⟩
          simp [normList] at hl
        · intro hall
          have := hall _ (List.mem_cons_self _ _)
          simp [isObjB] at this
      | bool b =>
        constructor
        · rintro ⟨l, hl⟩
          simp [normList] at hl
        · intro hall
          have := hall _ (List.mem_cons_self _ _)
          simp [isObjB] at this
      | num q =>
        constructor
        · rintro ⟨l, hl⟩
          simp [normList] at hl
        · intro hall
          have := hall _ (List.mem_cons_self _ _)
          simp [isObjB] at this
      | str s =>
        constructor
        · rintro ⟨l, hl⟩
          simp [normList] at hl
        · intro hall
          have := hall _ (List.mem_cons_self _ _)
          simp [isObjB] at this
      | arr l2 =>
        constructor
        · rintro ⟨l, hl⟩
          simp [normList] at hl
        · intro hall
          have := hall _ (List.mem_cons_self _ _)
          simp [isObjB] at this
  · intro s hp
    unfold format_city_suggestions jRaw
    dsimp only
    rw [hp]

/-- C5 witness: plain prose degrades to the empty list without raising, and a
list of mappings succeeds. -/
theorem city_suggestions_malformed_amended_witness :
    format_city_suggestions (JValue.str ("no structure here")) =
      Except.ok [] ∧
    ∃ l, normList [JValue.obj [("place", JValue.str ("Hampi"))]] =
      Except.ok l :=
  ⟨city_suggestions_malformed_amended.2.2 ("no structure here") rfl,
   (city_suggestions_malformed_amended.2.1
     [JValue.obj [("place", JValue.str ("Hampi"))]]).mpr
     (by intro v hv; rw [List.mem_singleton] at hv; subst hv; rfl)⟩

/-- C4 counterexample: the claim fails as stated.  On the empty mapping and
on the parsed empty object, `format_safety_info` returns `\x7b\x7d` — no
documented key (for instance `overall_risk_level`) is present, instead of
every key being defaulted. -/
theorem normalizer_keys_cex :
    format_safety_info (JValue.obj []) = JValue.obj [] ∧
    format_safety_info (JValue.str ("\x7b\x7d")) = JValue.obj [] ∧
    jKeys (format_safety_info (JValue.str ("\x7b\x7d"))) = [] ∧
    format_packing_list (JValue.str ("not json")) = JValue.obj [] :=
  ⟨rfl, rfl, rfl, rfl⟩

/-- C4 (amended): only the destination-list normalizer fills its schema:
each element `format_city_suggestions` returns carries all nine documented
keys with the documented defaults, and `format_local_expertise` returns
either `\x7b\x7d` (parse failure), a record with exactly its two documented
keys holding lists, or raises `AttributeError` on a non-mapping parse; the
remaining normalizers return the parsed value unchanged (`\x7b\x7d` on
failure or non-string input) and hence can omit every documented key. -/
theorem normalizer_keys_amended :
    (∀ kvs, jKeys (fcsElem kvs) = nineKeys) ∧
    (∀ x, format_local_expertise x = Except.ok (JValue.obj []) ∨
      (∃ a c, format_local_expertise x = Except.ok (JValue.obj
        [("top_attractions", JValue.arr a), ("local_cuisine", JValue.arr c)])) ∨
      format_local_expertise x = Except.error PyErr.attributeError) ∧
    (∀ s v, jsonParse (pyOrStr (extractStr s) s) = some v →
      format_safety_info (JValue.str s) = v) ∧
    (∀ s, jsonParse (pyOrStr (extractStr s) s) = none →
      format_safety_info (JValue.str s) = JValue.obj []) ∧
    (∀ x, (∀ s, x ≠ JValue.str s) → format_safety_info x = JValue.obj []) := by
  refine ⟨jKeys_fcsElem, ?_, ?_, ?_, ?_⟩
  · intro x
    have harr : ∀ w : JValue, ∃ a, keepList w = JValue.arr a := by
      intro w
      cases w with
      | arr l => exact ⟨l, rfl⟩
      | null => exact ⟨[], rfl⟩
      | bool b => exact ⟨[], rfl⟩
      | num q => exact ⟨[], rfl⟩
      | str s => exact ⟨[], rfl⟩
      | obj o => exact ⟨[], rfl⟩
    unfold format_local_expertise
    cases hr : jRaw x with
    | str s =>
      dsimp only
      cases hp : jsonParse s with
      | none => exact Or.inl rfl
      | some d =>
        cases d with
        | obj kvs =>
          obtain ⟨a, ha⟩ :=
            harr (jGetD kvs ("top_attractions") (JValue.arr []))
          obtain ⟨c, hc⟩ := harr (jGetD kvs ("local_cuisine") (JValue.arr []))
          exact Or.inr (Or.inl ⟨a, c, by dsimp only; rw [ha, hc]⟩)
        | null => exact Or.inr (Or.inr rfl)
        | bool b => exact Or.inr (Or.inr rfl)
        | num q => exact Or.inr (Or.inr rfl)
        | str s2 => exact Or.inr (Or.inr rfl)
        | arr l => exact Or.inr (Or.inr rfl)
    | null => exact Or.inr (Or.inl ⟨[], [], rfl⟩)
    | bool b =>
      cases b with
      | false => exact Or.inr (Or.inl ⟨[], [], rfl⟩)
      | true => exact Or.inr (Or.inr rfl)
    | num q =>
      by_cases hq : q = 0
      · subst hq
        exact Or.inr (Or.inl ⟨[], [], by
          norm_num [jTruthy]
          exact ⟨rfl, rfl⟩⟩)
      · refine Or.inr (Or.inr ?_)
        dsimp only
        rw [show jTruthy (JValue.num q) = true from by simp [jTruthy, hq]]
        rfl
    | arr l =>
      cases l with
      | nil => exact Or.inr (Or.inl ⟨[], [], rfl⟩)
      | cons a t => exact Or.inr (Or.inr rfl)
    | obj o =>
      cases o with
      | nil => exact Or.inr (Or.inl ⟨[], [], rfl⟩)
      | cons a t =>
        obtain ⟨aa, ha⟩ :=
          harr (jGetD (a :: t) ("top_attractions") (JValue.arr []))
        obtain ⟨cc, hc⟩ := harr (jGetD (a :: t) ("local_cuisine") (JValue.arr []))
        refine Or.inr (Or.inl ⟨aa, cc, ?_⟩)
        show Except.ok (JValue.obj
          [("top_attractions",
            keepList (jGetD (a :: t) ("top_attractions") (JValue.arr []))),
           ("local_cuisine",
            keepList (jGetD (a :: t) ("local_cuisine") (JValue.arr [])))]) =
          Except.ok (JValue.obj [("top_attractions", JValue.arr aa),
            ("local_cuisine", JValue.arr cc)])
        rw [ha, hc]
  · intro s v hp
    unfold format_safety_info jRaw
    dsimp only
    rw [hp]
    rfl
  · intro s hp
    unfold format_safety_info jRaw
    dsimp only
    rw [hp]
    rfl
  · intro x hx
    cases x with
    | str s => exact absurd rfl (hx s)
    | null => rfl
    | bool b => rfl
    | num q => rfl
    | arr l => rfl
    | obj o => rfl

/-- C4 witness: a parsed object comes back unchanged from
`format_safety_info` (keys not enforced), while a destination-candidate
element always carries the nine documented keys. -/
theorem normalizer_keys_amended_witness :
    format_safety_info (JValue.str ("\x7b\"a\": \"b\"\x7d")) =
      JValue.obj [("a", JValue.str ("b"))] ∧
    jKeys (fcsElem []) = nineKeys :=
  ⟨normalizer_keys_amended.2.2.1 ("\x7b\"a\": \"b\"\x7d")
     (JValue.obj [("a", JValue.str ("b"))]) rfl,
   normalizer_keys_amended.1 []⟩

/- §15  Claim theorems: extractor totality and idempotence (C6, C7). -/

/-- C6: `_parse_json_blocks` is a total function of its payload (no
exception can escape in the embedding — `json.loads` failures are modelled
by `none` and both stages absorb them), and whenever `json.loads` fails on
the labelled-fenced-block candidate and on the bare-span candidate (or no
candidate exists), the result is `None` rather than an error. -/
theorem extractor_failure_none (s : String)
    (h1 : ∀ c, findFencedFrom false s.data = some c →
      jsonParse (String.mk c) = none)
    (h2 : ∀ c, findBareFrom s.data = some c →
      jsonParse (String.mk c) = none) :
    parse_json_blocks (JValue.str s) = none := by
  unfold parse_json_blocks
  dsimp only
  cases hf : findFencedFrom false s.data with
  | some c =>
    dsimp only
    rw [h1 c hf]
    cases hb : findBareFrom s.data with
    | some c2 => exact h2 c2 hb
    | none => rfl
  | none =>
    dsimp only
    cases hb : findBareFrom s.data with
    | some c2 => exact h2 c2 hb
    | none => rfl

/-- C6 witness: the empty string and plain prose (no braces or brackets)
extract to `None` without any error. -/
theorem extractor_failure_none_witness :
    parse_json_blocks (JValue.str ("")) = none ∧
    parse_json_blocks
      (JValue.str ("I am sorry, I cannot produce data today.")) = none :=
  ⟨extractor_failure_none ("") (fun _ h => nomatch h) (fun _ h => nomatch h),
   extractor_failure_none ("I am sorry, I cannot produce data today.")
     (fun _ h => nomatch h) (fun _ h => nomatch h)⟩

theorem lazyClose_acc (close : Char) :
    ∀ cs acc r : List Char, lazyClose close acc cs = some r →
    ∃ u, r = acc.reverse ++ u := by
  intro cs
  induction cs with
  | nil => intro acc r h; simp [lazyClose] at h
  | cons c rest ih =>
    intro acc r h
    simp only [lazyClose] at h
    by_cases hcond :
        (c = close && (matchLit false ticks3 (dropPyWs rest)).isSome) = true
    · rw [if_pos hcond] at h
      have hr : (c :: acc).reverse = r := Option.some.inj h
      refine ⟨[c], ?_⟩
      rw [← hr]
      simp
    · rw [if_neg hcond] at h
      obtain ⟨u, hu⟩ := ih (c :: acc) r h
      refine ⟨c :: u, ?_⟩
      rw [hu]
      simp

theorem findFenced_shape (ci : Bool) :
    ∀ cs sp : List Char, findFencedFrom ci cs = some sp →
    (∃ u, sp = '{' :: u) ∨ (∃ u, sp = '[' :: u) := by
  intro cs
  induction cs with
  | nil => intro sp h; simp [findFencedFrom] at h
  | cons c rest ih =>
    intro sp h
    simp only [findFencedFrom] at h
    cases hm : matchLit ci fenceLit (c :: rest) with
    | none =>
      rw [hm] at h
      exact ih sp h
    | some after =>
      rw [hm] at h
      dsimp only at h
      cases hd : dropPyWs after with
      | nil =>
        rw [hd] at h
        exact ih sp h
      | cons b tcs =>
        rw [hd] at h
        dsimp only at h
        by_cases hb : b = '{'
        · rw [if_pos hb] at h
          cases hl : lazyClose '}' ['{'] tcs with
          | some span =>
            rw [hl] at h
            have hsp : span = sp := Option.some.inj h
            obtain ⟨u, hu⟩ := lazyClose_acc '}' tcs ['{'] span hl
            left
            refine ⟨u, ?_⟩
            rw [← hsp, hu]
            rfl
          | none =>
            rw [hl] at h
            exact ih sp h
        · rw [if_neg hb] at h
          by_cases hb2 : b = '['
          · rw [if_pos hb2] at h
            cases hl : lazyClose ']' ['['] tcs with
            | some span =>
              rw [hl] at h
              have hsp : span = sp := Option.some.inj h
              obtain ⟨u, hu⟩ := lazyClose_acc ']' tcs ['['] span hl
              right
              refine ⟨u, ?_⟩
              rw [← hsp, hu]
              rfl
            | none =>
              rw [hl] at h
              exact ih sp h
          · rw [if_neg hb2] at h
            exact ih sp h

theorem findBare_shape :
    ∀ cs sp : List Char, findBareFrom cs = some sp →
    (∃ u, sp = '{' :: u) ∨ (∃ u, sp = '[' :: u) := by
  intro cs
  induction cs with
  | nil => intro sp h; simp [findBareFrom] at h
  | cons c rest ih =>
    intro sp h
    simp only [findBareFrom] at h
    by_cases hb : c = '{'
    · rw [if_pos hb] at h
      cases ht : takeToLast '}' rest with
      | some tt =>
        rw [ht] at h
        exact Or.inl ⟨tt, (Option.some.inj h).symm⟩
      | none =>
        rw [ht] at h
        exact ih sp h
    · rw [if_neg hb] at h
      by_cases hb2 : c = '['
      · rw [if_pos hb2] at h
        cases ht : takeToLast ']' rest with
        | some tt =>
          rw [ht] at h
          exact Or.inr ⟨tt, (Option.some.inj h).symm⟩
        | none =>
          rw [ht] at h
          exact ih sp h
      · rw [if_neg hb2] at h
        exact ih sp h

theorem parseVal_succ_brace (f : ℕ) (t : List Char) :
    parseVal (f + 1) ('{' :: t) =
      match parseObjBody f t [] true with
      | some (kvs, r) => some (JValue.obj kvs, r)
      | none => none := rfl

theorem parseVal_succ_bracket (f : ℕ) (t : List Char) :
    parseVal (f + 1) ('[' :: t) =
      match parseArrBody f t [] true with
      | some (vs, r) => some (JValue.arr vs, r)
      | none => none := rfl

theorem jsonParse_head_obj (t : List Char) (v : JValue)
    (h : jsonParse (String.mk ('{' :: t)) = some v) :
    ∃ kvs, v = JValue.obj kvs := by
  unfold jsonParse at h
  have hd : (String.mk ('{' :: t)).data = '{' :: t := rfl
  rw [hd] at h
  have hf : 2 * ('{' :: t).length + 8 = (2 * t.length + 9) + 1 := by
    simp [List.length_cons]
    ring
  rw [hf, parseVal_succ_brace] at h
  cases ho : parseObjBody (2 * t.length + 9) t [] true with
  | none =>
    rw [ho] at h
    simp at h
  | some p =>
    obtain ⟨kvs, r⟩ := p
    rw [ho] at h
    dsimp only at h
    by_cases hws : (skipWs r).isEmpty
    · rw [if_pos hws] at h
      exact ⟨kvs, (Option.some.inj h).symm⟩
    · rw [if_neg hws] at h
      simp at h

theorem jsonParse_head_arr (t : List Char) (v : JValue)
    (h : jsonParse (String.mk ('[' :: t)) = some v) :
    ∃ vs, v = JValue.arr vs := by
  unfold jsonParse at h
  have hd : (String.mk ('[' :: t)).data = '[' :: t := rfl
  rw [hd] at h
  have hf : 2 * ('[' :: t).length + 8 = (2 * t.length + 9) + 1 := by
    simp [List.length_cons]
    ring
  rw [hf, parseVal_succ_bracket] at h
  cases ho : parseArrBody (2 * t.length + 9) t [] true with
  | none =>
    rw [ho] at h
    simp at h
  | some p =>
    obtain ⟨vs, r⟩ := p
    rw [ho] at h
    dsimp only at h
    by_cases hws : (skipWs r).isEmpty
    · rw [if_pos hws] at h
      exact ⟨vs, (Option.some.inj h).symm⟩
    · rw [if_neg hws] at h
      simp at h

theorem jsonParse_span_container (sp : List Char) (v : JValue)
    (hshape : (∃ u, sp = '{' :: u) ∨ (∃ u, sp = '[' :: u))
    (h : jsonParse (String.mk sp) = some v) :
    (∃ l, v = JValue.arr l) ∨ (∃ o, v = JValue.obj o) := by
  rcases hshape with ⟨u, rfl⟩ | ⟨u, rfl⟩
  · exact Or.inr (jsonParse_head_obj u v h)
  · exact Or.inl (jsonParse_head_arr u v h)

theorem pjb_container (x v : JValue) (h : parse_json_blocks x = some v) :
    (∃ l, v = JValue.arr l) ∨ (∃ o, v = JValue.obj o) := by
  cases x with
  | arr l =>
    simp only [parse_json_blocks] at h
    exact Or.inl ⟨l, (Option.some.inj h).symm⟩
  | obj o =>
    simp only [parse_json_blocks] at h
    exact Or.inr ⟨o, (Option.some.inj h).symm⟩
  | null => simp [parse_json_blocks] at h
  | bool b => simp [parse_json_blocks] at h
  | num q => simp [parse_json_blocks] at h
  | str s =>
    unfold parse_json_blocks at h
    dsimp only at h
    cases hf : findFencedFrom false s.data with
    | some sp =>
      rw [hf] at h
      dsimp only at h
      cases hj : jsonParse (String.mk sp) with
      | some v2 =>
        rw [hj] at h
        dsimp only at h
        have hv : v2 = v := Option.some.inj h
        subst hv
        exact jsonParse_span_container sp v2
          (findFenced_shape false s.data sp hf) hj
      | none =>
        rw [hj] at h
        dsimp only at h
        cases hb : findBareFrom s.data with
        | some sp2 =>
          rw [hb] at h
          exact jsonParse_span_container sp2 v
            (findBare_shape s.data sp2 hb) h
        | none =>
          rw [hb] at h
          simp at h
    | none =>
      rw [hf] at h
      dsimp only at h
      cases hb : findBareFrom s.data with
      | some sp2 =>
        rw [hb] at h
        exact jsonParse_span_container sp2 v
          (findBare_shape s.data sp2 hb) h
      | none =>
        rw [hb] at h
        simp at h

/-- C7: `_parse_json_blocks` returns an already-structured payload
(array/object) unchanged, and the extraction is idempotent: applying it to
its own result (Python `None` modelled by `null`) changes nothing. -/
theorem extractor_idempotent (x : JValue) :
    ((∃ l, x = JValue.arr l) ∨ (∃ o, x = JValue.obj o) →
      parse_json_blocks x = some x) ∧
    parseJsonBlocksO (parse_json_blocks x) = parse_json_blocks x := by
  constructor
  · rintro (⟨l, rfl⟩ | ⟨o, rfl⟩) <;> rfl
  · cases h : parse_json_blocks x with
    | none => rfl
    | some v =>
      rcases pjb_container x v h with ⟨l, rfl⟩ | ⟨o, rfl⟩ <;> rfl

/-- C7 witness: a structured payload passes through unchanged, and a text
payload extracts to the same value when extracted twice. -/
theorem extractor_idempotent_witness :
    parse_json_blocks (JValue.arr [JValue.null]) =
      some (JValue.arr [JValue.null]) ∧
    parseJsonBlocksO (parse_json_blocks (JValue.str ("pick [true] please"))) =
      parse_json_blocks (JValue.str ("pick [true] please")) :=
  ⟨(extractor_idempotent (JValue.arr [JValue.null])).1 (Or.inl ⟨_, rfl⟩),
   (extractor_idempotent (JValue.str ("pick [true] please"))).2⟩
